import Mathlib

/-!
Verification of the `remind` tool (src/rust/remind/src/main.rs).

The development embeds the program shallowly:

* `Delta.fromStr` embeds `impl FromStr for Delta`, the character-by-character
  scan with mutable state `(hours, minutes, number)` realised as the explicit
  state type `ScanState` threaded through `scan`.
* `parseU8` embeds Rust `str::parse::<u8>` as used on the digit accumulator.
* `mainRun` embeds the observable behaviour of `main` after argument parsing
  as a trace of output and sleep events, with the alert loop unrolled to a
  fuel bound so that both the terminating (`once`) and the non-terminating
  behaviour can be stated.
-/

/-- The ASCII-decimal fragment of Rust `char::is_numeric` (`Char.isDigit`).
The full predicate also accepts other Unicode numeric characters
(categories Nd, Nl, No), whose tables are not reproducible here.  The scan
is therefore defined twice below: `scanCharGen` and friends take the
numeric predicate as a parameter, and claims that quantify over arbitrary
input strings are proved for every choice of that parameter, so that
instantiating it with the actual `char::is_numeric` table yields the
statement about the program; claims whose quantified inputs are all ASCII
use the instance at this fragment, on which the two predicates agree
character for character. -/
def isNumericChar (c : Char) : Bool := c.isDigit

/-- Decimal value of a digit string, most significant digit first, exactly
as Rust `str::parse::<u8>` accumulates it (the post-hoc bound check below is
equivalent to the per-step overflow check of Rust because the accumulated
value is monotone in each step). -/
def digitsVal (s : List Char) : Nat :=
  s.foldl (fun a c => a * 10 + (c.toNat - 48)) 0

/-- Models Rust `str::parse::<u8>`: an optional leading plus sign followed
by one or more ASCII digits, the value having to fit in `u8` (≤ 255).
Returns `none` exactly when the Rust parse returns `Err`. -/
def parseU8 (s : List Char) : Option Nat :=
  let ds := if s.head? = some '+' then s.tail else s
  if ds ≠ [] ∧ ds.all Char.isDigit ∧ digitsVal ds ≤ 255 then
    some (digitsVal ds)
  else
    none

/-- The parsed duration, `struct Delta { hours: u8, minutes: u8 }`.  The
fields are Nat here; `parseU8` only ever produces values ≤ 255, which is
proved as an invariant rather than built into the type. -/
structure Delta where
  hours : Nat
  minutes : Nat
deriving DecidableEq, Repr

/-- The error type `DeltaError { message: String }`. -/
structure DeltaError where
  message : String
deriving DecidableEq, Repr

/-- Embeds `DeltaError::new`. -/
def DeltaError.new (message : String) : DeltaError :=
  { message := message }

/-- The mutable local state of the `for` loop in `Delta::from_str`:
`hours`, `minutes` and the digit accumulator `number`. -/
structure ScanState where
  hours : Nat
  minutes : Nat
  number : List Char
deriving DecidableEq, Repr

/-- One iteration of the `for c in s.chars()` loop body of
`Delta::from_str`: on `h` or `m` the accumulator is parsed and assigned
(failing with the respective message), on a numeric character the
accumulator is extended, and on anything else the loop returns the syntax
error. -/
def scanChar (st : ScanState) (c : Char) : Except DeltaError ScanState :=
  if c = 'h' then
    match parseU8 st.number with
    | some v => .ok ⟨v, st.minutes, []⟩
    | none => .error (DeltaError.new "Invalid hours")
  else if c = 'm' then
    match parseU8 st.number with
    | some v => .ok ⟨st.hours, v, []⟩
    | none => .error (DeltaError.new "Invalid minutes")
  else if isNumericChar c then
    .ok ⟨st.hours, st.minutes, st.number ++ [c]⟩
  else
    .error (DeltaError.new "Invalid syntax, ex: 2h30m")

/-- The `for` loop of `Delta::from_str`, with early return on error. -/
def scan : List Char → ScanState → Except DeltaError ScanState
  | [], st => .ok st
  | c :: cs, st =>
    match scanChar st c with
    | .ok st' => scan cs st'
    | .error e => .error e

/-- Embeds `Delta::from_str` at the ASCII fragment of `char::is_numeric`:
run the scan from the initial state `(0, 0, "")` and on success return the
final `hours` and `minutes`, discarding whatever is left in the
accumulator.  On all-ASCII inputs this coincides with the program exactly;
`Delta.fromStrGen` below is the predicate-parameterized form (and
`fromStrGen_isNumericChar` proves this is its instance). -/
def Delta.fromStr (s : String) : Except DeltaError Delta :=
  match scan s.data ⟨0, 0, []⟩ with
  | .ok st => .ok ⟨st.hours, st.minutes⟩
  | .error e => .error e

/-- The loop body of `Delta::from_str`, parameterized by the predicate
`isNum` standing for Rust `char::is_numeric`.  Apart from the parameter
this is the same translation as `scanChar`: on `h` or `m` the accumulator
is parsed and assigned (failing with the respective message), on a
character satisfying `isNum` the accumulator is extended, and on anything
else the loop returns the syntax error. -/
def scanCharGen (isNum : Char → Bool) (st : ScanState) (c : Char) :
    Except DeltaError ScanState :=
  if c = 'h' then
    match parseU8 st.number with
    | some v => .ok ⟨v, st.minutes, []⟩
    | none => .error (DeltaError.new "Invalid hours")
  else if c = 'm' then
    match parseU8 st.number with
    | some v => .ok ⟨st.hours, v, []⟩
    | none => .error (DeltaError.new "Invalid minutes")
  else if isNum c then
    .ok ⟨st.hours, st.minutes, st.number ++ [c]⟩
  else
    .error (DeltaError.new "Invalid syntax, ex: 2h30m")

/-- The `for` loop of `Delta::from_str` over `scanCharGen`. -/
def scanGen (isNum : Char → Bool) :
    List Char → ScanState → Except DeltaError ScanState
  | [], st => .ok st
  | c :: cs, st =>
    match scanCharGen isNum st c with
    | .ok st' => scanGen isNum cs st'
    | .error e => .error e

/-- `Delta::from_str` parameterized by the numeric predicate: run the scan
from the initial state `(0, 0, "")` and on success return the final
`hours` and `minutes`, discarding whatever is left in the accumulator.
`Delta.fromStr` above is the instance at `isNumericChar`. -/
def Delta.fromStrGen (isNum : Char → Bool) (s : String) :
    Except DeltaError Delta :=
  match scanGen isNum s.data ⟨0, 0, []⟩ with
  | .ok st => .ok ⟨st.hours, st.minutes⟩
  | .error e => .error e

deriving instance DecidableEq for Except

/-- Fuel-based decimal rendering helper: the base-10 digits of `n`, most
significant first, empty for `n = 0`; `fuel ≥ n` makes the recursion
structural. -/
def toDecCharsAux : Nat → Nat → List Char
  | 0, _ => []
  | fuel + 1, n =>
    if n = 0 then [] else toDecCharsAux fuel (n / 10) ++ [Nat.digitChar (n % 10)]

/-- Canonical ASCII-decimal rendering of a natural number, as Rust formats
integers: the base-10 digits, most significant first, with `0` rendered as
"0".  Used to build the concrete input strings the claims quantify over. -/
def natChars (n : Nat) : List Char :=
  if n = 0 then ['0'] else toDecCharsAux n n

/-- Observable events of `main`: text printed to stdout and sleeps. -/
inductive Event where
  | print (s : String)
  | sleep (secs : Nat)
deriving DecidableEq, Repr, BEq

/-- The total wait computed by `main`:
`u64::from(delta.hours) * 3600 + u64::from(delta.minutes) * 60`, with `u64`
arithmetic modelled as arithmetic modulo 2^64. -/
def totalSecondsU64 (d : Delta) : Nat :=
  (d.hours * 3600 % 2 ^ 64 + d.minutes * 60 % 2 ^ 64) % 2 ^ 64

/-- The confirmation line printed by `main` (with the trailing newline of
`println!`). -/
def remindLine (d : Delta) : String :=
  "Remind in " ++ toString d.hours ++ " hour(s) and " ++
    toString d.minutes ++ " minute(s).\n"

/-- The alert line printed on each loop iteration: bell, message, newline. -/
def alertEvent (msg : String) : Event :=
  Event.print ("\x07" ++ msg ++ "\n")

/-- The `loop` at the end of `main`, unrolled `fuel` times: each iteration
prints the bell-prefixed message, breaks if `once` is set, and otherwise
sleeps 30 seconds and repeats.  The Bool is true when the loop has broken
(terminated normally) within `fuel` iterations. -/
def alertLoop (once : Bool) (msg : String) : Nat → List Event × Bool
  | 0 => ([], false)
  | fuel + 1 =>
    if once then ([alertEvent msg], true)
    else
      let rest := alertLoop once msg fuel
      (alertEvent msg :: Event.sleep 30 :: rest.1, rest.2)

/-- The observable behaviour of `main` after argument parsing: the
confirmation line, the sleep, the clear-screen escape sequence, then the
alert loop; the second component is the exit code, `some 0` when the
program terminates normally within `fuel` loop iterations and `none`
otherwise. -/
def mainRun (once : Bool) (delta : Delta) (message : Option String)
    (fuel : Nat) : List Event × Option Nat :=
  let msg := message.getD "Time is up!"
  let loopRes := alertLoop once msg fuel
  (Event.print (remindLine delta)
    :: Event.sleep (totalSecondsU64 delta)
    :: Event.print "\x1b[2J\x1b[H"
    :: loopRes.1,
   if loopRes.2 then some 0 else none)

example : Delta.fromStr "2h30m" = .ok ⟨2, 30⟩ := by decide

example : Delta.fromStr "" = .ok ⟨0, 0⟩ := by decide

example : Delta.fromStr "2h30" = .ok ⟨2, 0⟩ := by decide

example : Delta.fromStr "hx" = .error (DeltaError.new "Invalid hours") := by decide

example : Delta.fromStr "1x" = .error (DeltaError.new "Invalid syntax, ex: 2h30m") := by
  decide

example : Delta.fromStr "30m2h" = .ok ⟨2, 30⟩ := by decide

example : Delta.fromStr "1h2h" = .ok ⟨2, 0⟩ := by decide

example : Delta.fromStr "300h" = .error (DeltaError.new "Invalid hours") := by decide

example : natChars 255 = ['2', '5', '5'] := by decide

example : (mainRun false ⟨0, 0⟩ none 2).1.count (Event.print "\x1b[2J\x1b[H") = 1 := by
  decide

theorem scan_append (p q : List Char) (st : ScanState) :
    scan (p ++ q) st =
      match scan p st with
      | .ok st' => scan q st'
      | .error e => .error e := by
  induction p generalizing st with
  | nil => simp [scan]
  | cons c cs ih =>
    simp only [List.cons_append, scan]
    cases scanChar st c with
    | ok st' => simp [ih]
    | error e => simp

theorem scanChar_digit (st : ScanState) {c : Char} (hc : c.isDigit) :
    scanChar st c = .ok ⟨st.hours, st.minutes, st.number ++ [c]⟩ := by
  have h1 : c ≠ 'h' := by rintro rfl; exact absurd hc (by decide)
  have h2 : c ≠ 'm' := by rintro rfl; exact absurd hc (by decide)
  simp [scanChar, h1, h2, isNumericChar, hc]

theorem scan_digits (ds : List Char) (hd : ∀ c ∈ ds, c.isDigit) (st : ScanState) :
    scan ds st = .ok ⟨st.hours, st.minutes, st.number ++ ds⟩ := by
  induction ds generalizing st with
  | nil => simp [scan]
  | cons c cs ih =>
    have hc : c.isDigit := hd c (by simp)
    simp only [scan, scanChar_digit st hc]
    rw [ih (fun x hx => hd x (by simp [hx]))]
    simp

theorem parseU8_digits (ds : List Char) (hne : ds ≠ [])
    (hd : ∀ c ∈ ds, c.isDigit) (hle : digitsVal ds ≤ 255) :
    parseU8 ds = some (digitsVal ds) := by
  have hall : ds.all Char.isDigit = true := List.all_eq_true.mpr hd
  have hhead : ds.head? ≠ some '+' := by
    cases ds with
    | nil => simp
    | cons c t =>
      have hc : c.isDigit := hd c (by simp)
      simp only [List.head?_cons, ne_eq, Option.some.injEq]
      rintro rfl
      exact absurd hc (by decide)
  simp [parseU8, hhead, hne, hall, hle]

theorem parseU8_le {ds : List Char} {v : Nat} (h : parseU8 ds = some v) :
    v ≤ 255 := by
  unfold parseU8 at h
  split at h <;> simp_all <;> omega

theorem digitChar_toNat_sub {d : Nat} (h : d < 10) :
    (Nat.digitChar d).toNat - 48 = d := by
  interval_cases d <;> rfl

theorem digitChar_isDigit {d : Nat} (h : d < 10) :
    (Nat.digitChar d).isDigit = true := by
  interval_cases d <;> rfl

theorem digitsVal_append (xs : List Char) (c : Char) :
    digitsVal (xs ++ [c]) = digitsVal xs * 10 + (c.toNat - 48) := by
  simp [digitsVal, List.foldl_append]

theorem toDecCharsAux_val :
    ∀ fuel n : Nat, n ≤ fuel → digitsVal (toDecCharsAux fuel n) = n := by
  intro fuel
  induction fuel with
  | zero =>
    intro n hn
    interval_cases n
    rfl
  | succ fuel ih =>
    intro n hn
    by_cases h0 : n = 0
    · subst h0; rfl
    · have hdiv : n / 10 ≤ fuel := by omega
      have hmod : n % 10 < 10 := by omega
      simp only [toDecCharsAux, h0, if_false, digitsVal_append, ih _ hdiv,
        digitChar_toNat_sub hmod]
      omega

theorem toDecCharsAux_digits :
    ∀ fuel n : Nat, ∀ c ∈ toDecCharsAux fuel n, c.isDigit := by
  intro fuel
  induction fuel with
  | zero => intro n c hc; simp [toDecCharsAux] at hc
  | succ fuel ih =>
    intro n c hc
    by_cases h0 : n = 0
    · subst h0; simp [toDecCharsAux] at hc
    · have hmod : n % 10 < 10 := by omega
      simp only [toDecCharsAux, h0, if_false, List.mem_append,
        List.mem_singleton] at hc
      rcases hc with hc | hc
      · exact ih _ c hc
      · subst hc; exact digitChar_isDigit hmod

theorem natChars_ne_nil (n : Nat) : natChars n ≠ [] := by
  unfold natChars
  by_cases h0 : n = 0
  · simp [h0]
  · simp only [h0, if_false]
    cases n with
    | zero => exact absurd rfl h0
    | succ m => simp [toDecCharsAux]

theorem natChars_digits (n : Nat) : ∀ c ∈ natChars n, c.isDigit := by
  intro c hc
  unfold natChars at hc
  by_cases h0 : n = 0
  · simp [h0] at hc; subst hc; rfl
  · simp only [h0, if_false] at hc
    exact toDecCharsAux_digits n n c hc

theorem digitsVal_natChars (n : Nat) : digitsVal (natChars n) = n := by
  unfold natChars
  by_cases h0 : n = 0
  · subst h0; rfl
  · simp only [h0, if_false]
    exact toDecCharsAux_val n n (Nat.le_refl n)

theorem scan_run_h (ds rest : List Char) (hd : ∀ c ∈ ds, c.isDigit)
    (hne : ds ≠ []) (hle : digitsVal ds ≤ 255) (h m : Nat) :
    scan (ds ++ 'h' :: rest) ⟨h, m, []⟩ = scan rest ⟨digitsVal ds, m, []⟩ := by
  rw [scan_append, scan_digits ds hd]
  simp only [List.nil_append]
  simp [scan, scanChar, parseU8_digits ds hne hd hle]

theorem scan_run_m (ds rest : List Char) (hd : ∀ c ∈ ds, c.isDigit)
    (hne : ds ≠ []) (hle : digitsVal ds ≤ 255) (h m : Nat) :
    scan (ds ++ 'm' :: rest) ⟨h, m, []⟩ = scan rest ⟨h, digitsVal ds, []⟩ := by
  rw [scan_append, scan_digits ds hd]
  simp only [List.nil_append]
  simp [scan, scanChar, parseU8_digits ds hne hd hle]

theorem scanChar_ok_char {st st' : ScanState} {c : Char}
    (h : scanChar st c = .ok st') :
    c = 'h' ∨ c = 'm' ∨ isNumericChar c := by
  unfold scanChar at h
  split at h
  · rename_i hc
    exact Or.inl hc
  · split at h
    · rename_i hc
      exact Or.inr (Or.inl hc)
    · split at h
      · rename_i hc
        exact Or.inr (Or.inr hc)
      · cases h

theorem scanChar_ok_number {st st' : ScanState} {c : Char}
    (h : scanChar st c = .ok st') :
    st'.number = [] ∨ (st'.number = st.number ++ [c] ∧ c.isDigit) := by
  unfold scanChar at h
  split at h
  · cases hp : parseU8 st.number <;> rw [hp] at h
    · cases h
    · cases h
      exact Or.inl rfl
  · split at h
    · cases hp : parseU8 st.number <;> rw [hp] at h
      · cases h
      · cases h
        exact Or.inl rfl
    · split at h
      · rename_i hc
        cases h
        exact Or.inr ⟨rfl, hc⟩
      · cases h

theorem scanChar_ok_bounds {st st' : ScanState} {c : Char}
    (h : scanChar st c = .ok st')
    (hh : st.hours ≤ 255) (hm : st.minutes ≤ 255) :
    st'.hours ≤ 255 ∧ st'.minutes ≤ 255 := by
  unfold scanChar at h
  split at h
  · cases hp : parseU8 st.number <;> rw [hp] at h
    · cases h
    · cases h
      exact ⟨parseU8_le hp, hm⟩
  · split at h
    · cases hp : parseU8 st.number <;> rw [hp] at h
      · cases h
      · cases h
        exact ⟨hh, parseU8_le hp⟩
    · split at h
      · cases h
        exact ⟨hh, hm⟩
      · cases h

theorem scan_ok_chars {s : List Char} {st st' : ScanState}
    (hs : scan s st = .ok st') :
    ∀ c ∈ s, c = 'h' ∨ c = 'm' ∨ isNumericChar c := by
  induction s generalizing st with
  | nil => intro c hc; simp at hc
  | cons c cs ih =>
    intro x hx
    simp only [scan] at hs
    cases hch : scanChar st c with
    | error e => rw [hch] at hs; cases hs
    | ok st1 =>
      rw [hch] at hs
      rcases List.mem_cons.mp hx with rfl | hx
      · exact scanChar_ok_char hch
      · exact ih hs x hx

theorem scan_error_of_bad {s : List Char} {st : ScanState}
    (hbad : ∃ c ∈ s, ¬(c = 'h' ∨ c = 'm' ∨ isNumericChar c)) :
    ∃ e, scan s st = .error e := by
  cases hres : scan s st with
  | ok st' =>
    obtain ⟨c, hc, hnc⟩ := hbad
    exact absurd (scan_ok_chars hres c hc) hnc
  | error e => exact ⟨e, rfl⟩

theorem scan_ok_bounds {s : List Char} {st st' : ScanState}
    (hs : scan s st = .ok st') (hh : st.hours ≤ 255) (hm : st.minutes ≤ 255) :
    st'.hours ≤ 255 ∧ st'.minutes ≤ 255 := by
  induction s generalizing st with
  | nil =>
    simp [scan] at hs
    subst hs
    exact ⟨hh, hm⟩
  | cons c cs ih =>
    simp only [scan] at hs
    cases hch : scanChar st c with
    | error e => rw [hch] at hs; cases hs
    | ok st1 =>
      rw [hch] at hs
      obtain ⟨h1, h2⟩ := scanChar_ok_bounds hch hh hm
      exact ih hs h1 h2

theorem scan_ok_number {s : List Char} {st st' : ScanState}
    (hacc : ∀ c ∈ st.number, c.isDigit) (hs : scan s st = .ok st') :
    ∀ c ∈ st'.number, c.isDigit := by
  induction s generalizing st with
  | nil =>
    simp [scan] at hs
    subst hs
    exact hacc
  | cons c cs ih =>
    simp only [scan] at hs
    cases hch : scanChar st c with
    | error e => rw [hch] at hs; cases hs
    | ok st1 =>
      rw [hch] at hs
      refine ih ?_ hs
      rcases scanChar_ok_number hch with hn | ⟨hn, hc⟩
      · rw [hn]; intro x hx; simp at hx
      · rw [hn]
        intro x hx
        rcases List.mem_append.mp hx with hx | hx
        · exact hacc x hx
        · rw [List.mem_singleton.mp hx]; exact hc

theorem parseU8_none_of_bad {ds : List Char} (hd : ∀ c ∈ ds, c.isDigit)
    (hbad : ds = [] ∨ 255 < digitsVal ds) : parseU8 ds = none := by
  have hhead : ds.head? ≠ some '+' := by
    cases ds with
    | nil => simp
    | cons c t =>
      simp only [List.head?_cons, ne_eq, Option.some.injEq]
      rintro rfl
      exact absurd (hd '+' (by simp)) (by decide)
  rcases hbad with rfl | hlt
  · rfl
  · have hcond : ¬(ds ≠ [] ∧ ds.all Char.isDigit = true ∧ digitsVal ds ≤ 255) := by
      rintro ⟨-, -, hle⟩
      omega
    simp only [parseU8, if_neg hhead, if_neg hcond]

theorem alertLoop_once_eq (msg : String) (fuel : Nat) (h : 1 ≤ fuel) :
    alertLoop true msg fuel = ([alertEvent msg], true) := by
  cases fuel with
  | zero => omega
  | succ n => rfl

theorem alertLoop_repeat_eq (msg : String) (fuel : Nat) :
    alertLoop false msg fuel =
      ((List.replicate fuel [alertEvent msg, Event.sleep 30]).flatten, false) := by
  induction fuel with
  | zero => rfl
  | succ n ih => simp [alertLoop, ih, List.replicate_succ]

theorem alertLoop_events (once : Bool) (msg : String) (fuel : Nat) :
    ∀ e ∈ (alertLoop once msg fuel).1,
      e = alertEvent msg ∨ e = Event.sleep 30 := by
  induction fuel with
  | zero => intro e he; simp [alertLoop] at he
  | succ n ih =>
    intro e he
    cases once with
    | true =>
      simp [alertLoop] at he
      exact Or.inl he
    | false =>
      simp [alertLoop] at he
      rcases he with he | he | he
      · exact Or.inl he
      · exact Or.inr he
      · exact ih e he

theorem fromStr_canonical (N M : Nat) (hN : N ≤ 255) (hM : M ≤ 255) :
    Delta.fromStr (String.mk (natChars N ++ 'h' :: (natChars M ++ ['m']))) =
      .ok ⟨N, M⟩ := by
  unfold Delta.fromStr
  rw [show (String.mk (natChars N ++ 'h' :: (natChars M ++ ['m']))).data
      = natChars N ++ 'h' :: (natChars M ++ ['m']) from rfl]
  rw [scan_run_h _ _ (natChars_digits N) (natChars_ne_nil N)
    (by rw [digitsVal_natChars]; exact hN)]
  rw [digitsVal_natChars]
  rw [show natChars M ++ ['m'] = natChars M ++ 'm' :: ([] : List Char) from rfl]
  rw [scan_run_m _ _ (natChars_digits M) (natChars_ne_nil M)
    (by rw [digitsVal_natChars]; exact hM)]
  rw [digitsVal_natChars]
  rfl

theorem fromStr_canonical_rev (N M : Nat) (hN : N ≤ 255) (hM : M ≤ 255) :
    Delta.fromStr (String.mk (natChars M ++ 'm' :: (natChars N ++ ['h']))) =
      .ok ⟨N, M⟩ := by
  unfold Delta.fromStr
  rw [show (String.mk (natChars M ++ 'm' :: (natChars N ++ ['h']))).data
      = natChars M ++ 'm' :: (natChars N ++ ['h']) from rfl]
  rw [scan_run_m _ _ (natChars_digits M) (natChars_ne_nil M)
    (by rw [digitsVal_natChars]; exact hM)]
  rw [digitsVal_natChars]
  rw [show natChars N ++ ['h'] = natChars N ++ 'h' :: ([] : List Char) from rfl]
  rw [scan_run_h _ _ (natChars_digits N) (natChars_ne_nil N)
    (by rw [digitsVal_natChars]; exact hN)]
  rw [digitsVal_natChars]
  rfl

theorem scanGen_isNumericChar_eq (cs : List Char) (st : ScanState) :
    scanGen isNumericChar cs st = scan cs st := by
  induction cs generalizing st with
  | nil => rfl
  | cons c cs ih =>
    simp only [scanGen, scan]
    have hcc : scanCharGen isNumericChar st c = scanChar st c := rfl
    rw [hcc]
    cases scanChar st c with
    | ok st' => exact ih st'
    | error e => rfl

theorem fromStrGen_isNumericChar (s : String) :
    Delta.fromStrGen isNumericChar s = Delta.fromStr s := by
  unfold Delta.fromStrGen Delta.fromStr
  rw [scanGen_isNumericChar_eq]

theorem scanGen_append (isNum : Char → Bool) (p q : List Char)
    (st : ScanState) :
    scanGen isNum (p ++ q) st =
      match scanGen isNum p st with
      | .ok st' => scanGen isNum q st'
      | .error e => .error e := by
  induction p generalizing st with
  | nil => simp [scanGen]
  | cons c cs ih =>
    simp only [List.cons_append, scanGen]
    cases scanCharGen isNum st c with
    | ok st' => simp [ih]
    | error e => simp

theorem scanCharGen_ok_char {isNum : Char → Bool} {st st' : ScanState}
    {c : Char} (h : scanCharGen isNum st c = .ok st') :
    c = 'h' ∨ c = 'm' ∨ isNum c := by
  unfold scanCharGen at h
  split at h
  · rename_i hc
    exact Or.inl hc
  · split at h
    · rename_i hc
      exact Or.inr (Or.inl hc)
    · split at h
      · rename_i hc
        exact Or.inr (Or.inr hc)
      · cases h

theorem scanCharGen_ok_number {isNum : Char → Bool} {st st' : ScanState}
    {c : Char} (h : scanCharGen isNum st c = .ok st') :
    st'.number = [] ∨ (st'.number = st.number ++ [c] ∧ isNum c) := by
  unfold scanCharGen at h
  split at h
  · cases hp : parseU8 st.number <;> rw [hp] at h
    · cases h
    · cases h
      exact Or.inl rfl
  · split at h
    · cases hp : parseU8 st.number <;> rw [hp] at h
      · cases h
      · cases h
        exact Or.inl rfl
    · split at h
      · rename_i hc
        cases h
        exact Or.inr ⟨rfl, hc⟩
      · cases h

theorem scanGen_ok_chars {isNum : Char → Bool} {s : List Char}
    {st st' : ScanState} (hs : scanGen isNum s st = .ok st') :
    ∀ c ∈ s, c = 'h' ∨ c = 'm' ∨ isNum c := by
  induction s generalizing st with
  | nil => intro c hc; simp at hc
  | cons c cs ih =>
    intro x hx
    simp only [scanGen] at hs
    cases hch : scanCharGen isNum st c with
    | error e => rw [hch] at hs; cases hs
    | ok st1 =>
      rw [hch] at hs
      rcases List.mem_cons.mp hx with rfl | hx
      · exact scanCharGen_ok_char hch
      · exact ih hs x hx

theorem scanGen_error_of_bad {isNum : Char → Bool} {s : List Char}
    {st : ScanState}
    (hbad : ∃ c ∈ s, ¬(c = 'h' ∨ c = 'm' ∨ isNum c)) :
    ∃ e, scanGen isNum s st = .error e := by
  cases hres : scanGen isNum s st with
  | ok st' =>
    obtain ⟨c, hc, hnc⟩ := hbad
    exact absurd (scanGen_ok_chars hres c hc) hnc
  | error e => exact ⟨e, rfl⟩

theorem scanGen_ok_number {isNum : Char → Bool} {s : List Char}
    {st st' : ScanState} (hacc : ∀ c ∈ st.number, isNum c)
    (hs : scanGen isNum s st = .ok st') :
    ∀ c ∈ st'.number, isNum c := by
  induction s generalizing st with
  | nil =>
    simp [scanGen] at hs
    subst hs
    exact hacc
  | cons c cs ih =>
    simp only [scanGen] at hs
    cases hch : scanCharGen isNum st c with
    | error e => rw [hch] at hs; cases hs
    | ok st1 =>
      rw [hch] at hs
      refine ih ?_ hs
      rcases scanCharGen_ok_number hch with hn | ⟨hn, hc⟩
      · rw [hn]; intro x hx; simp at hx
      · rw [hn]
        intro x hx
        rcases List.mem_append.mp hx with hx | hx
        · exact hacc x hx
        · rw [List.mem_singleton.mp hx]; exact hc

theorem parseU8_none_of_invalid {ds : List Char}
    (hhead : ds.head? ≠ some '+')
    (hbad : ds = [] ∨ ds.all Char.isDigit = false ∨ 255 < digitsVal ds) :
    parseU8 ds = none := by
  rcases hbad with rfl | hbad
  · rfl
  · have hcond : ¬(ds ≠ [] ∧ ds.all Char.isDigit = true ∧ digitsVal ds ≤ 255) := by
      rintro ⟨-, hall, hle⟩
      rcases hbad with hb | hb
      · rw [hall] at hb; cases hb
      · omega
    simp only [parseU8, if_neg hhead, if_neg hcond]

/-- C1: for every string of the form "{N}h{M}m" with N and M rendered as
ASCII-decimal integers in the range 0..255, `Delta.fromStr` returns Ok with
hours = N and minutes = M. -/
theorem c1_canonical_parse (N M : Nat) (hN : N ≤ 255) (hM : M ≤ 255) :
    Delta.fromStr (String.mk (natChars N ++ 'h' :: (natChars M ++ ['m']))) =
      .ok ⟨N, M⟩ :=
  fromStr_canonical N M hN hM

theorem c1_witness :
    2 ≤ 255 ∧ 30 ≤ 255 ∧
    Delta.fromStr (String.mk (natChars 2 ++ 'h' :: (natChars 30 ++ ['m']))) =
      .ok ⟨2, 30⟩ :=
  ⟨by decide, by decide, c1_canonical_parse 2 30 (by decide) (by decide)⟩

/-- C2 fails as stated: in the input "hx" the character x is neither a
digit nor a unit marker, yet `Delta.fromStr` does not fail at x with the
syntax message; it fails earlier, at the unit marker h with its empty
accumulator, with the message "Invalid hours". -/
theorem c2_counterexample :
    'x' ∈ "hx".data ∧
    ¬('x' = 'h' ∨ 'x' = 'm' ∨ isNumericChar 'x') ∧
    Delta.fromStr "hx" = .error (DeltaError.new "Invalid hours") ∧
    DeltaError.new "Invalid hours" ≠
      DeltaError.new "Invalid syntax, ex: 2h30m" := by
  decide

/-- C2 (amended): for every predicate `isNum` standing for the Rust
`char::is_numeric` table, if some character of the input is not numeric in
that sense, not h and not m, then `Delta.fromStrGen isNum` fails; and when
the scan actually reaches the first such character — that is, the prefix
before it scans without error — the failure is exactly ParseError
"Invalid syntax, ex: 2h30m", regardless of what follows that character.
Quantifying over `isNum` means the instance at the actual is_numeric
table is covered, so Unicode numeric characters (which is_numeric accepts
and which therefore do not satisfy the hypothesis) force nothing here. -/
theorem c2_amended_bad_char (isNum : Char → Bool) (p rest : List Char)
    (c : Char) (hc : ¬(c = 'h' ∨ c = 'm' ∨ isNum c)) :
    (∃ e, Delta.fromStrGen isNum (String.mk (p ++ c :: rest)) = .error e) ∧
    (∀ st, scanGen isNum p ⟨0, 0, []⟩ = .ok st →
      Delta.fromStrGen isNum (String.mk (p ++ c :: rest)) =
        .error (DeltaError.new "Invalid syntax, ex: 2h30m")) := by
  constructor
  · unfold Delta.fromStrGen
    rw [show (String.mk (p ++ c :: rest)).data = p ++ c :: rest from rfl]
    obtain ⟨e, he⟩ := @scanGen_error_of_bad isNum (p ++ c :: rest)
      ⟨0, 0, []⟩ ⟨c, by simp, hc⟩
    rw [he]
    exact ⟨e, rfl⟩
  · intro st hp
    unfold Delta.fromStrGen
    rw [show (String.mk (p ++ c :: rest)).data = p ++ c :: rest from rfl]
    rw [scanGen_append, hp]
    have h1 : c ≠ 'h' := fun e => hc (Or.inl e)
    have h2 : c ≠ 'm' := fun e => hc (Or.inr (Or.inl e))
    have h3 : isNum c = false := by
      cases hn : isNum c
      · rfl
      · exact absurd (Or.inr (Or.inr hn)) hc
    simp [scanGen, scanCharGen, h1, h2, h3]

theorem c2_witness :
    Delta.fromStrGen isNumericChar (String.mk (['1'] ++ 'x' :: ['m'])) =
      .error (DeltaError.new "Invalid syntax, ex: 2h30m") :=
  (c2_amended_bad_char isNumericChar ['1'] ['m'] 'x' (by decide)).2
    ⟨0, 0, ['1']⟩ (by decide)

/-- C3: trailing digit characters never followed by a unit marker are
silently discarded — appending any further digit characters to an input
that parses successfully does not change the result; the empty string
parses to hours = 0, minutes = 0; and "2h30" parses to hours = 2,
minutes = 0 with no error. -/
theorem c3_trailing_digits_discarded (s : List Char) (d : Delta)
    (ds : List Char)
    (hok : Delta.fromStr (String.mk s) = .ok d)
    (hds : ∀ c ∈ ds, isNumericChar c) :
    Delta.fromStr (String.mk (s ++ ds)) = .ok d ∧
    Delta.fromStr "" = .ok ⟨0, 0⟩ ∧
    Delta.fromStr "2h30" = .ok ⟨2, 0⟩ := by
  refine ⟨?_, by decide, by decide⟩
  unfold Delta.fromStr at hok ⊢
  rw [show (String.mk (s ++ ds)).data = s ++ ds from rfl]
  rw [show (String.mk s).data = s from rfl] at hok
  cases hres : scan s ⟨0, 0, []⟩ with
  | error e => rw [hres] at hok; cases hok
  | ok st =>
    rw [hres] at hok
    have h2 : scan (s ++ ds) ⟨0, 0, []⟩ =
        .ok ⟨st.hours, st.minutes, st.number ++ ds⟩ := by
      rw [scan_append, hres]
      exact scan_digits ds hds st
    rw [h2]
    exact hok

theorem c3_witness :
    Delta.fromStr (String.mk (['2', 'h'] ++ ['3', '0'])) = .ok ⟨2, 0⟩ ∧
    Delta.fromStr "" = .ok ⟨0, 0⟩ ∧
    Delta.fromStr "2h30" = .ok ⟨2, 0⟩ :=
  c3_trailing_digits_discarded ['2', 'h'] ⟨2, 0⟩ ['3', '0']
    (by decide) (by decide)

/-- C4 fails as stated: the unit marker h occurs in "xh" with an empty
digit accumulator (no digits were collected before it), yet the parse
error is the syntax error raised at the earlier character x, not
"Invalid hours" — the claim holds only for markers the scan reaches. -/
theorem c4_counterexample :
    'h' ∈ "xh".data ∧
    Delta.fromStr "xh" = .error (DeltaError.new "Invalid syntax, ex: 2h30m") ∧
    DeltaError.new "Invalid syntax, ex: 2h30m" ≠
      DeltaError.new "Invalid hours" := by
  decide

/-- C4 (amended): for every predicate `isNum` standing for the Rust
`char::is_numeric` table (on which the plus sign is not numeric), and
every occurrence of a unit marker that the scan reaches (the prefix
before it scans without error, leaving state st), if the accumulator is
empty, is not a valid unsigned integer (contains a character that is not
an ASCII digit, as with Unicode numeric characters, which u8 parsing
rejects), or overflows u8 (exceeds 255), then `Delta.fromStrGen isNum`
fails with exactly "Invalid hours" for the marker h and exactly
"Invalid minutes" for the marker m, regardless of what follows. -/
theorem c4_amended_marker_invalid (isNum : Char → Bool)
    (hplus : isNum '+' = false) (p rest : List Char) (st : ScanState)
    (hp : scanGen isNum p ⟨0, 0, []⟩ = .ok st)
    (hbad : st.number = [] ∨ st.number.all Char.isDigit = false ∨
      255 < digitsVal st.number) :
    Delta.fromStrGen isNum (String.mk (p ++ 'h' :: rest)) =
      .error (DeltaError.new "Invalid hours") ∧
    Delta.fromStrGen isNum (String.mk (p ++ 'm' :: rest)) =
      .error (DeltaError.new "Invalid minutes") := by
  have hnum : ∀ c ∈ st.number, isNum c := scanGen_ok_number (by simp) hp
  have hhead : st.number.head? ≠ some '+' := by
    cases hsn : st.number with
    | nil => simp
    | cons c t =>
      simp only [List.head?_cons, ne_eq, Option.some.injEq]
      rintro rfl
      have hmem := hnum '+' (by rw [hsn]; simp)
      rw [hplus] at hmem
      cases hmem
  have hnone : parseU8 st.number = none := parseU8_none_of_invalid hhead hbad
  constructor
  · unfold Delta.fromStrGen
    rw [show (String.mk (p ++ 'h' :: rest)).data = p ++ 'h' :: rest from rfl]
    rw [scanGen_append, hp]
    simp [scanGen, scanCharGen, hnone]
  · unfold Delta.fromStrGen
    rw [show (String.mk (p ++ 'm' :: rest)).data = p ++ 'm' :: rest from rfl]
    rw [scanGen_append, hp]
    simp [scanGen, scanCharGen, hnone]

theorem c4_witness :
    Delta.fromStrGen (fun c => c.isDigit || c = '٣')
        (String.mk (['٣'] ++ 'h' :: [])) =
      .error (DeltaError.new "Invalid hours") ∧
    Delta.fromStrGen (fun c => c.isDigit || c = '٣')
        (String.mk (['٣'] ++ 'm' :: [])) =
      .error (DeltaError.new "Invalid minutes") :=
  c4_amended_marker_invalid (fun c => c.isDigit || c = '٣') (by decide)
    ['٣'] [] ⟨0, 0, ['٣']⟩ (by decide) (Or.inr (Or.inl (by decide)))

/-- C5 fails as stated: running without the once flag for two alert
iterations, the trace contains the alert line twice but the clear-screen
escape sequence only once — the screen is cleared only before the first
alert, not on every repetition of the alert. -/
theorem c5_counterexample :
    (mainRun false ⟨0, 0⟩ none 2).1.count (alertEvent "Time is up!") = 2 ∧
    (mainRun false ⟨0, 0⟩ none 2).1.count (Event.print "\x1b[2J\x1b[H") = 1 := by
  decide

/-- C5 (amended): the clear-screen escape sequence is emitted exactly
once, immediately before the alert loop starts; every event of the loop
itself is either the bell-plus-message line or a 30-second sleep, so no
iteration after the first is preceded by a clear. -/
theorem c5_amended_clear_once (once : Bool) (delta : Delta)
    (message : Option String) (fuel : Nat) :
    (mainRun once delta message fuel).1 =
      Event.print (remindLine delta)
        :: Event.sleep (totalSecondsU64 delta)
        :: Event.print "\x1b[2J\x1b[H"
        :: (alertLoop once (message.getD "Time is up!") fuel).1 ∧
    ∀ e ∈ (alertLoop once (message.getD "Time is up!") fuel).1,
      e = alertEvent (message.getD "Time is up!") ∨ e = Event.sleep 30 :=
  ⟨rfl, alertLoop_events once (message.getD "Time is up!") fuel⟩

theorem c5_witness :
    (mainRun false ⟨0, 0⟩ none 2).1 =
      Event.print (remindLine ⟨0, 0⟩)
        :: Event.sleep (totalSecondsU64 ⟨0, 0⟩)
        :: Event.print "\x1b[2J\x1b[H"
        :: (alertLoop false "Time is up!" 2).1 ∧
    (alertEvent "Time is up!" = alertEvent "Time is up!" ∨
      alertEvent "Time is up!" = Event.sleep 30) :=
  ⟨(c5_amended_clear_once false ⟨0, 0⟩ none 2).1,
   (c5_amended_clear_once false ⟨0, 0⟩ none 2).2 (alertEvent "Time is up!")
     (List.mem_cons_self _ _)⟩

/-- C6: with the once flag the loop emits exactly one alert and the
program terminates normally with exit code 0; without it, no number of
iterations terminates the loop (normal termination is unreachable, the
exit code stays none) and the trace repeats the alert followed by a
30-second sleep, once per iteration. -/
theorem c6_once_or_forever (delta : Delta) (message : Option String)
    (fuel : Nat) :
    (1 ≤ fuel →
      (mainRun true delta message fuel).2 = some 0 ∧
      (mainRun true delta message fuel).1 =
        [Event.print (remindLine delta), Event.sleep (totalSecondsU64 delta),
         Event.print "\x1b[2J\x1b[H",
         alertEvent (message.getD "Time is up!")]) ∧
    ((mainRun false delta message fuel).2 = none ∧
      (mainRun false delta message fuel).1 =
        Event.print (remindLine delta)
          :: Event.sleep (totalSecondsU64 delta)
          :: Event.print "\x1b[2J\x1b[H"
          :: (List.replicate fuel
              [alertEvent (message.getD "Time is up!"),
               Event.sleep 30]).flatten) := by
  refine ⟨fun h => ⟨?_, ?_⟩, ?_, ?_⟩
  · simp [mainRun, alertLoop_once_eq _ _ h]
  · simp [mainRun, alertLoop_once_eq _ _ h]
  · simp [mainRun, alertLoop_repeat_eq]
  · simp [mainRun, alertLoop_repeat_eq]

theorem c6_witness :
    1 ≤ 1 ∧
    ((mainRun true ⟨0, 0⟩ none 1).2 = some 0 ∧
      (mainRun true ⟨0, 0⟩ none 1).1 =
        [Event.print (remindLine ⟨0, 0⟩), Event.sleep (totalSecondsU64 ⟨0, 0⟩),
         Event.print "\x1b[2J\x1b[H", alertEvent "Time is up!"]) ∧
    ((mainRun false ⟨0, 0⟩ none 1).2 = none ∧
      (mainRun false ⟨0, 0⟩ none 1).1 =
        Event.print (remindLine ⟨0, 0⟩)
          :: Event.sleep (totalSecondsU64 ⟨0, 0⟩)
          :: Event.print "\x1b[2J\x1b[H"
          :: (List.replicate 1
              [alertEvent "Time is up!", Event.sleep 30]).flatten) :=
  ⟨by decide, (c6_once_or_forever ⟨0, 0⟩ none 1).1 (by decide),
   (c6_once_or_forever ⟨0, 0⟩ none 1).2⟩

/-- C7: for every successfully parsed Delta the wait computed by main
equals exactly hours * 3600 + minutes * 60 — the u64 computation neither
overflows nor truncates, because parsing bounds both fields by 255. -/
theorem c7_total_seconds_exact (s : String) (d : Delta)
    (h : Delta.fromStr s = .ok d) :
    totalSecondsU64 d = d.hours * 3600 + d.minutes * 60 ∧
    d.hours ≤ 255 ∧ d.minutes ≤ 255 := by
  unfold Delta.fromStr at h
  cases hres : scan s.data ⟨0, 0, []⟩ with
  | error e => rw [hres] at h; cases h
  | ok st =>
    rw [hres] at h
    obtain ⟨h1, h2⟩ := scan_ok_bounds hres (by norm_num) (by norm_num)
    cases h
    refine ⟨?_, h1, h2⟩
    show (st.hours * 3600 % 2 ^ 64 + st.minutes * 60 % 2 ^ 64) % 2 ^ 64
      = st.hours * 3600 + st.minutes * 60
    omega

theorem c7_witness :
    totalSecondsU64 ⟨2, 30⟩ = 2 * 3600 + 30 * 60 ∧ 2 ≤ 255 ∧ 30 ≤ 255 :=
  c7_total_seconds_exact "2h30m" ⟨2, 30⟩ (by decide)

/-- C8: parsing is order-insensitive for unit markers — for N and M in
0..255 the string "{M}m{N}h" parses to the same Delta as "{N}h{M}m",
namely hours = N and minutes = M. -/
theorem c8_order_insensitive (N M : Nat) (hN : N ≤ 255) (hM : M ≤ 255) :
    Delta.fromStr (String.mk (natChars M ++ 'm' :: (natChars N ++ ['h']))) =
      Delta.fromStr (String.mk (natChars N ++ 'h' :: (natChars M ++ ['m']))) ∧
    Delta.fromStr (String.mk (natChars M ++ 'm' :: (natChars N ++ ['h']))) =
      .ok ⟨N, M⟩ := by
  have h1 := fromStr_canonical N M hN hM
  have h2 := fromStr_canonical_rev N M hN hM
  exact ⟨h2.trans h1.symm, h2⟩

theorem c8_witness :
    Delta.fromStr (String.mk (natChars 30 ++ 'm' :: (natChars 2 ++ ['h']))) =
      Delta.fromStr (String.mk (natChars 2 ++ 'h' :: (natChars 30 ++ ['m']))) ∧
    Delta.fromStr (String.mk (natChars 30 ++ 'm' :: (natChars 2 ++ ['h']))) =
      .ok ⟨2, 30⟩ :=
  c8_order_insensitive 2 30 (by decide) (by decide)

/-- C9: a repeated unit marker overwrites the value set by its earlier
occurrence, with no duplicate-detection error — "{N1}h{N2}h" parses
successfully with hours = N2 (minutes keeping the default 0), and
"{N1}m{N2}m" with minutes = N2. -/
theorem c9_repeated_marker (N1 N2 : Nat) (h1 : N1 ≤ 255) (h2 : N2 ≤ 255) :
    Delta.fromStr (String.mk (natChars N1 ++ 'h' :: (natChars N2 ++ ['h']))) =
      .ok ⟨N2, 0⟩ ∧
    Delta.fromStr (String.mk (natChars N1 ++ 'm' :: (natChars N2 ++ ['m']))) =
      .ok ⟨0, N2⟩ := by
  constructor
  · unfold Delta.fromStr
    rw [show (String.mk (natChars N1 ++ 'h' :: (natChars N2 ++ ['h']))).data
        = natChars N1 ++ 'h' :: (natChars N2 ++ ['h']) from rfl]
    rw [scan_run_h _ _ (natChars_digits N1) (natChars_ne_nil N1)
      (by rw [digitsVal_natChars]; exact h1)]
    rw [show natChars N2 ++ ['h'] = natChars N2 ++ 'h' :: ([] : List Char) from rfl]
    rw [scan_run_h _ _ (natChars_digits N2) (natChars_ne_nil N2)
      (by rw [digitsVal_natChars]; exact h2)]
    rw [digitsVal_natChars]
    rfl
  · unfold Delta.fromStr
    rw [show (String.mk (natChars N1 ++ 'm' :: (natChars N2 ++ ['m']))).data
        = natChars N1 ++ 'm' :: (natChars N2 ++ ['m']) from rfl]
    rw [scan_run_m _ _ (natChars_digits N1) (natChars_ne_nil N1)
      (by rw [digitsVal_natChars]; exact h1)]
    rw [show natChars N2 ++ ['m'] = natChars N2 ++ 'm' :: ([] : List Char) from rfl]
    rw [scan_run_m _ _ (natChars_digits N2) (natChars_ne_nil N2)
      (by rw [digitsVal_natChars]; exact h2)]
    rw [digitsVal_natChars]
    rfl

theorem c9_witness :
    Delta.fromStr (String.mk (natChars 1 ++ 'h' :: (natChars 2 ++ ['h']))) =
      .ok ⟨2, 0⟩ ∧
    Delta.fromStr (String.mk (natChars 1 ++ 'm' :: (natChars 2 ++ ['m']))) =
      .ok ⟨0, 2⟩ :=
  c9_repeated_marker 1 2 (by decide) (by decide)

/-- C10: for every predicate `isNum` standing for the Rust
`char::is_numeric` table, whenever `Delta.fromStrGen isNum` returns Ok,
every character of the input is h, m, or numeric in that sense — the
parser never accepts a string containing any other character.  The proof
is uniform in the predicate, so the instance at the actual is_numeric
table is the statement about the program. -/
theorem c10_ok_char_classes (isNum : Char → Bool) (s : String) (d : Delta)
    (h : Delta.fromStrGen isNum s = .ok d) :
    ∀ c ∈ s.data, c = 'h' ∨ c = 'm' ∨ isNum c := by
  unfold Delta.fromStrGen at h
  cases hres : scanGen isNum s.data ⟨0, 0, []⟩ with
  | error e => rw [hres] at h; cases h
  | ok st => exact scanGen_ok_chars hres

theorem c10_witness :
    '²' = 'h' ∨ '²' = 'm' ∨ (fun c => c.isDigit || c = '²') '²' :=
  c10_ok_char_classes (fun c => c.isDigit || c = '²') "²" ⟨0, 0⟩
    (by decide) '²' (by decide)
